import Mathlib

/-!
Verification of the race-result data pipeline (`src/App.js`).

The JavaScript source is shallowly embedded:

* JavaScript numbers are modelled by `JSNum`: exact rationals plus the three
  non-finite values `NaN`, `Infinity` and `-Infinity`.  Floating-point
  rounding is not modelled; all arithmetic in the pipeline is on values where
  this does not change the branch structure of the code.
* `Math.floor` / `Math.round` of a finite number is an integer, so those two
  operations land in `JSInt` (integers plus the non-finite values), which is
  what the template-literal rendering consumes.
* JavaScript strings are Lean `String`s (lists of characters); `Number(...)`,
  `parseFloat(...)` and `parseInt(...)` are modelled on the decimal /
  `Infinity` fragment of their grammars (the hexadecimal, octal and binary
  prefixes accepted by `Number` and `parseInt` never occur in this pipeline's
  data and are mapped to the invalid result).
* `Array.prototype.sort` (stable, comparator-driven or default
  string-comparing) is modelled by Mathlib's stable `List.insertionSort`.
-/

set_option allowUnsafeReducibility true in
attribute [semireducible] Rat.mul Rat.add Rat.sub Rat.inv Rat.ofScientific

/-- A JavaScript number: an exact rational or one of the non-finite values. -/
inductive JSNum where
  | nan
  | inf
  | negInf
  | num (q : ℚ)
deriving DecidableEq, Inhabited, Repr

/-- A JavaScript number known to be integral when finite
(the codomain of `Math.floor` and `Math.round`). -/
inductive JSInt where
  | nan
  | inf
  | negInf
  | int (z : ℤ)
deriving DecidableEq, Inhabited, Repr

/-- JavaScript `+` on numbers. -/
def JSNum.add : JSNum → JSNum → JSNum
  | .nan, _ => .nan
  | _, .nan => .nan
  | .inf, .negInf => .nan
  | .negInf, .inf => .nan
  | .inf, _ => .inf
  | _, .inf => .inf
  | .negInf, _ => .negInf
  | _, .negInf => .negInf
  | .num a, .num b => .num (a + b)

/-- JavaScript binary `-` on numbers. -/
def JSNum.sub : JSNum → JSNum → JSNum
  | .nan, _ => .nan
  | _, .nan => .nan
  | .inf, .inf => .nan
  | .negInf, .negInf => .nan
  | .inf, _ => .inf
  | .negInf, _ => .negInf
  | .num _, .inf => .negInf
  | .num _, .negInf => .inf
  | .num a, .num b => .num (a - b)

/-- JavaScript `*` on numbers. -/
def JSNum.mul : JSNum → JSNum → JSNum
  | .nan, _ => .nan
  | _, .nan => .nan
  | .inf, .inf => .inf
  | .inf, .negInf => .negInf
  | .negInf, .inf => .negInf
  | .negInf, .negInf => .inf
  | .inf, .num b => if 0 < b then .inf else if b < 0 then .negInf else .nan
  | .num a, .inf => if 0 < a then .inf else if a < 0 then .negInf else .nan
  | .negInf, .num b => if 0 < b then .negInf else if b < 0 then .inf else .nan
  | .num a, .negInf => if 0 < a then .negInf else if a < 0 then .inf else .nan
  | .num a, .num b => .num (a * b)

/-- JavaScript `/` on numbers (division by zero gives a signed infinity or NaN;
the sign of zero is not modelled, `x / 0` behaves as `x / +0`). -/
def JSNum.div : JSNum → JSNum → JSNum
  | .nan, _ => .nan
  | _, .nan => .nan
  | .inf, .inf => .nan
  | .inf, .negInf => .nan
  | .negInf, .inf => .nan
  | .negInf, .negInf => .nan
  | .inf, .num b => if b < 0 then .negInf else .inf
  | .negInf, .num b => if b < 0 then .inf else .negInf
  | .num _, .inf => .num 0
  | .num _, .negInf => .num 0
  | .num a, .num b =>
    if b = 0 then (if 0 < a then .inf else if a < 0 then .negInf else .nan)
    else .num (a / b)

/-- Truncation toward zero on rationals (the `q` of JavaScript remainder). -/
def qtrunc (q : ℚ) : ℤ := if 0 ≤ q then ⌊q⌋ else ⌈q⌉

/-- JavaScript `%` (remainder: `a - b * trunc (a / b)` for finite operands). -/
def JSNum.mod : JSNum → JSNum → JSNum
  | .nan, _ => .nan
  | _, .nan => .nan
  | .inf, _ => .nan
  | .negInf, _ => .nan
  | .num a, .inf => .num a
  | .num a, .negInf => .num a
  | .num a, .num b => if b = 0 then .nan else .num (a - b * (qtrunc (a / b) : ℚ))

/-- JavaScript `>` on numbers (false whenever either side is NaN). -/
def JSNum.gt : JSNum → JSNum → Bool
  | .nan, _ => false
  | _, .nan => false
  | .inf, .inf => false
  | .inf, _ => true
  | .negInf, _ => false
  | .num _, .inf => false
  | .num _, .negInf => true
  | .num a, .num b => decide (b < a)

/-- JavaScript `Math.abs`. -/
def JSNum.mathAbs : JSNum → JSNum
  | .nan => .nan
  | .inf => .inf
  | .negInf => .inf
  | .num q => .num |q|

/-- JavaScript `Math.floor`. -/
def JSNum.mathFloor : JSNum → JSInt
  | .nan => .nan
  | .inf => .inf
  | .negInf => .negInf
  | .num q => .int ⌊q⌋

/-- JavaScript `Math.round` (half-up: `⌊x + 1/2⌋` for finite `x`). -/
def JSNum.mathRound : JSNum → JSInt
  | .nan => .nan
  | .inf => .inf
  | .negInf => .negInf
  | .num q => .int ⌊q + 1/2⌋

/-! ### Character and digit-string helpers -/

/-- The whitespace characters trimmed by `String.prototype.trim`, `Number` and
`parseFloat` (restricted to the four that can occur in this pipeline's data). -/
def isWs (c : Char) : Bool := c = ' ' || c = '\t' || c = '\n' || c = '\r'

/-- Decimal-digit test (`0`–`9` by code point). -/
def isDigitC (c : Char) : Bool := 48 ≤ c.toNat && c.toNat ≤ 57

/-- The numeric value of a digit character. -/
def charVal (c : Char) : Nat := c.toNat - 48

/-- The digit character for a value below ten. -/
def digitChar (d : Nat) : Char := Char.ofNat (48 + d)

/-- Value of a big-endian digit string. -/
def digitsToNat (l : List Char) : Nat := l.foldl (fun a c => a * 10 + charVal c) 0

/-- Little-endian digit list of a natural number, with explicit fuel so that
the definition is structurally recursive (kernel-reducible). -/
def natToCharsRevF : Nat → Nat → List Char
  | 0, _ => []
  | _ + 1, 0 => []
  | fuel + 1, n + 1 => digitChar ((n + 1) % 10) :: natToCharsRevF fuel ((n + 1) / 10)

/-- Decimal rendering of a natural number (JavaScript number-to-string on
non-negative integers). -/
def natToChars (n : Nat) : List Char :=
  if n = 0 then ['0'] else (natToCharsRevF n n).reverse

/-- Decimal rendering of `JSInt` values, as template literals render them. -/
def JSInt.toChars : JSInt → List Char
  | .nan => ['N', 'a', 'N']
  | .inf => ['I', 'n', 'f', 'i', 'n', 'i', 't', 'y']
  | .negInf => ['-', 'I', 'n', 'f', 'i', 'n', 'i', 't', 'y']
  | .int z => if z < 0 then '-' :: natToChars z.natAbs else natToChars z.toNat

/-- Trim whitespace from both ends of a character list (`trim`). -/
def trimWs (l : List Char) : List Char :=
  ((l.dropWhile isWs).reverse.dropWhile isWs).reverse

/-- JavaScript `String.prototype.trim`. -/
def jsTrim (s : String) : String := String.mk (trimWs s.toList)

/-- Strip one optional leading sign, reporting whether it was `-`. -/
def stripSign (l : List Char) : Bool × List Char :=
  match l with
  | [] => (false, [])
  | c :: t => if c = '-' then (true, t) else if c = '+' then (false, t) else (false, c :: t)

/-- `10 ^ n` on rationals, structurally (kernel-friendly). -/
def pow10 : Nat → ℚ
  | 0 => 1
  | n + 1 => 10 * pow10 n

/-- The characters of the string `Infinity`. -/
def infinityChars : List Char := ['I', 'n', 'f', 'i', 'n', 'i', 't', 'y']

/-- Split a character list at every colon, as `String.prototype.split(":")`
does (adjacent colons yield empty segments). -/
def splitOnColon : List Char → List (List Char)
  | [] => [[]]
  | c :: t =>
    if c = ':' then [] :: splitOnColon t
    else
      match splitOnColon t with
      | [] => [[c]]
      | h :: r => (c :: h) :: r

/-- `padStart(2, "0")` on a character list. -/
def padStart2 (l : List Char) : List Char :=
  if 2 ≤ l.length then l else List.replicate (2 - l.length) '0' ++ l

/-! ### The `Number(...)` model -/

/-- Optional exponent tail of a decimal literal: empty, or `e`/`E`, an optional
sign and at least one digit consuming the rest of the input. -/
def parseExpTail (base : ℚ) : List Char → Option ℚ
  | [] => some base
  | c :: rest =>
    if c = 'e' ∨ c = 'E' then
      let signed := stripSign rest
      let ds := signed.2.takeWhile isDigitC
      let r3 := signed.2.dropWhile isDigitC
      if ds.isEmpty ∨ ¬r3.isEmpty then none
      else some (if signed.1 then base / pow10 (digitsToNat ds) else base * pow10 (digitsToNat ds))
    else none

/-- An unsigned decimal literal consuming the whole input:
`digits [. digits] [exp]` or `. digits [exp]`. -/
def parseUnsignedDec (l : List Char) : Option ℚ :=
  let ip := l.takeWhile isDigitC
  let r1 := l.dropWhile isDigitC
  match r1 with
  | [] => if ip.isEmpty then none else some ((digitsToNat ip : ℚ))
  | c :: rest =>
    if c = '.' then
      let fp := rest.takeWhile isDigitC
      let r2 := rest.dropWhile isDigitC
      if ip.isEmpty ∧ fp.isEmpty then none
      else parseExpTail ((digitsToNat ip : ℚ) + (digitsToNat fp : ℚ) / pow10 fp.length) r2
    else if c = 'e' ∨ c = 'E' then
      if ip.isEmpty then none else parseExpTail ((digitsToNat ip : ℚ)) r1
    else none

/-- The signed stage of `Number(...)`: `Infinity` or a full decimal literal,
with the sign applied; NaN otherwise. -/
def jsNumberSigned (neg : Bool) (body : List Char) : JSNum :=
  if body = infinityChars then (if neg then .negInf else .inf)
  else
    match parseUnsignedDec body with
    | some q => .num (if neg then -q else q)
    | none => .nan

/-- JavaScript `Number(...)` on the characters of a string: trims whitespace,
maps the empty string to `0`, accepts an optional sign followed by `Infinity`
or a full decimal literal, and gives NaN otherwise. -/
def jsNumberL (l : List Char) : JSNum :=
  if (trimWs l).isEmpty then .num 0
  else jsNumberSigned (stripSign (trimWs l)).1 (stripSign (trimWs l)).2

/-- JavaScript `Number(...)` on a string. -/
def jsNumber (s : String) : JSNum := jsNumberL s.toList

/-! ### `parseFloat` and `parseInt` models -/

/-- Longest decimal-literal prefix, for `parseFloat` (trailing garbage and an
incomplete exponent are ignored rather than invalidating the parse). -/
def parseDecPrefix (l : List Char) : Option ℚ :=
  let ip := l.takeWhile isDigitC
  let r1 := l.dropWhile isDigitC
  let fr :=
    match r1 with
    | '.' :: t => (t.takeWhile isDigitC, t.dropWhile isDigitC)
    | _ => ([], r1)
  if ip.isEmpty ∧ fr.1.isEmpty then none
  else
    let base : ℚ := (digitsToNat ip : ℚ) + (digitsToNat fr.1 : ℚ) / pow10 fr.1.length
    match fr.2 with
    | c :: rest =>
      if c = 'e' ∨ c = 'E' then
        let signed := stripSign rest
        let ds := signed.2.takeWhile isDigitC
        if ds.isEmpty then some base
        else some (if signed.1 then base / pow10 (digitsToNat ds) else base * pow10 (digitsToNat ds))
      else some base
    | [] => some base

/-- JavaScript `parseFloat`: leading whitespace, optional sign, then the
longest `Infinity` or decimal-literal prefix; NaN if none. -/
def parseFloatJS (s : String) : JSNum :=
  let l := s.toList.dropWhile isWs
  let signed := stripSign l
  if signed.2.take 8 = infinityChars then (if signed.1 then .negInf else .inf)
  else
    match parseDecPrefix signed.2 with
    | some q => .num (if signed.1 then -q else q)
    | none => .nan

/-- JavaScript `parseInt` with no radix argument on decimal input: leading
whitespace, optional sign, then the longest digit prefix; invalid if there is
no digit.  (The automatic `0x` hexadecimal detection never fires on this
pipeline's data and is not modelled.) -/
def parseIntJS (s : String) : Option ℤ :=
  let l := s.toList.dropWhile isWs
  let signed := stripSign l
  let ds := signed.2.takeWhile isDigitC
  if ds.isEmpty then none
  else some ((if signed.1 then -1 else 1) * (digitsToNat ds : ℤ))

/-! ### The Time Parser (`timeToTotalSeconds`, `src/App.js` lines 9–18) -/

/-- `timeToTotalSeconds`: split on `:`, convert every part with `Number`,
reject if any part is NaN or the segment count is not 2 or 3, otherwise
`H*3600 + M*60 + S` resp. `M*60 + S`.  The `!timeStr` guard rejects exactly
the empty string (the only falsy string); the `typeof` guard is vacuous in
the typed model. -/
def timeToTotalSeconds (timeStr : String) : JSNum :=
  if timeStr.toList.isEmpty then .nan
  else
    let parts := (splitOnColon timeStr.toList).map jsNumberL
    if parts.any (fun p => p == JSNum.nan) then .nan
    else
      match parts with
      | [h, m, s] => ((h.mul (.num 3600)).add (m.mul (.num 60))).add s
      | [m, s] => (m.mul (.num 60)).add s
      | _ => .nan

/-! ### The pace display formatter (`secondsToPace`, `src/App.js` lines 20–29) -/

/-- The mile-to-kilometer constant of the source. -/
def MILE_TO_KM : ℚ := 160934 / 100000

/-- `secondsToPace`: NaN yields the marker `N/A` (the `=== null` arm of the
guard is unreachable in the typed model); otherwise optional km conversion,
then `minutes:seconds` with `Math.floor`/`Math.round` on the absolute value
and the seconds zero-padded to two digits. -/
def secondsToPace (totalSecondsPerMile : JSNum) (unit : String) : String :=
  if totalSecondsPerMile = JSNum.nan then "N/A"
  else
    let convertedSeconds :=
      if unit = "km" then totalSecondsPerMile.div (.num MILE_TO_KM) else totalSecondsPerMile
    let minutes := (convertedSeconds.mathAbs.div (.num 60)).mathFloor
    let seconds := (convertedSeconds.mathAbs.mod (.num 60)).mathRound
    String.mk (minutes.toChars ++ ':' :: padStart2 seconds.toChars)

/-- `Number.prototype.toFixed(1)`: nearest multiple of `1/10`, ties toward
positive infinity, rendered with exactly one decimal digit. -/
def toFixed1 : JSNum → String
  | .nan => "NaN"
  | .inf => "Infinity"
  | .negInf => "-Infinity"
  | .num q =>
    let n : ℤ := ⌊q * 10 + 1/2⌋
    String.mk ((if n < 0 then ['-'] else []) ++
      natToChars (n.natAbs / 10) ++ '.' :: natToChars (n.natAbs % 10))

/-! ### The Record Sanitizer (`processData`, `src/App.js` lines 31–49) -/

/-- A raw CSV row as PapaParse delivers it with `header: true`: the four
logical fields, each a string.  (Extra CSV columns are never read by the
pipeline and are omitted from the model.) -/
structure RawRow where
  runner : String
  year : String
  time : String
  event : String
deriving DecidableEq, Repr

/-- A validated record of the pipeline. -/
structure Record where
  runner : String
  year : ℤ
  paceInSeconds : JSNum
  event : String
deriving DecidableEq, Inhabited, Repr

/-- The result of the `.map` stage of `processData` for one row: either the
fully parsed object (whose `year` is `none` when `parseInt` gave NaN), or the
`{ ...row, paceInSeconds: NaN }` object produced when the time, the distance
or a zero distance invalidates the row. -/
inductive MappedRow where
  | ok (runner : String) (year : Option ℤ) (paceInSeconds : JSNum) (event : String)
  | bad (row : RawRow)
deriving DecidableEq, Repr

/-- The `.map` body of `processData`. -/
def mapRow (row : RawRow) : MappedRow :=
  let totalSeconds := timeToTotalSeconds (jsTrim row.time)
  let distance := parseFloatJS row.event
  if totalSeconds = JSNum.nan ∨ distance = JSNum.nan ∨ distance = JSNum.num 0 then
    .bad row
  else
    .ok (jsTrim row.runner) (parseIntJS row.year) (totalSeconds.div distance) (jsTrim row.event)

/-- The final `.filter(row => !isNaN(row.year) && !isNaN(row.paceInSeconds))`
stage, fused with the extraction of the typed record.  A `bad` row always has
`paceInSeconds = NaN` and is dropped; an `ok` row survives iff its year parsed
and its pace is not NaN. -/
def extractRecord : MappedRow → Option Record
  | .ok runner (some y) pace event => if pace = JSNum.nan then none else some ⟨runner, y, pace, event⟩
  | .ok _ none _ _ => none
  | .bad _ => none

/-- `processData`: presence filter (JavaScript truthiness of the four string
fields, i.e. non-emptiness), the parse map, and the validity filter. -/
def processData (data : List RawRow) : List Record :=
  ((data.filter (fun row =>
      !(row.runner == "") && !(row.year == "") && !(row.time == "") && !(row.event == ""))
    ).map mapRow).filterMap extractRecord

/-! ### Derived runner and year lists (`src/App.js` lines 85–86) -/

/-- `[...new Set(l)]`: first occurrences in encounter order. -/
def dedupFirstAux [DecidableEq α] (seen : List α) : List α → List α
  | [] => []
  | x :: t => if x ∈ seen then dedupFirstAux seen t else x :: dedupFirstAux (x :: seen) t

/-- `[...new Set(l)]`. -/
def dedupFirst [DecidableEq α] (l : List α) : List α := dedupFirstAux [] l

/-- The distinct runner names in first-appearance order. -/
def runners (rs : List Record) : List String := dedupFirst (rs.map (fun d => d.runner))

/-- Code-unit-wise string comparison on character lists, as the default
`Array.prototype.sort` comparator orders the stringified elements. -/
def lexLe : List Char → List Char → Bool
  | [], _ => true
  | _ :: _, [] => false
  | a :: as, b :: bs =>
    if a.toNat < b.toNat then true
    else if b.toNat < a.toNat then false
    else lexLe as bs

/-- The ordering used by `[...new Set(years)].sort()`: default sort, which
compares the decimal string renderings of the year numbers. -/
def yearStrLe (a b : ℤ) : Prop :=
  lexLe (JSInt.toChars (.int a)) (JSInt.toChars (.int b)) = true

instance : DecidableRel yearStrLe := fun _ _ =>
  inferInstanceAs (Decidable (_ = true))

/-- The distinct years, deduplicated in encounter order and sorted with the
default (string-comparing, stable) `Array.prototype.sort`. -/
def years (rs : List Record) : List ℤ :=
  List.insertionSort yearStrLe (dedupFirst (rs.map (fun d => d.year)))

/-! ### The trend table (`trendData`, `src/App.js` lines 88–95) -/

/-- One row of `trendData`: the year plus the runner-keyed pace cells in
object-key insertion order. -/
structure TrendRow where
  year : ℤ
  cells : List (String × JSNum)
deriving DecidableEq, Repr

/-- `yearlyData[year][runner] = pace`: replace the value of an existing
runner key in place, else append the new key. -/
def upsertCells (cells : List (String × JSNum)) (r : String) (p : JSNum) :
    List (String × JSNum) :=
  match cells with
  | [] => [(r, p)]
  | c :: rest => if c.1 = r then (c.1, p) :: rest else c :: upsertCells rest r p

/-- One `forEach` step: create the year row if missing, then write the cell. -/
def upsertRow (rows : List TrendRow) (y : ℤ) (r : String) (p : JSNum) : List TrendRow :=
  match rows with
  | [] => [⟨y, [(r, p)]⟩]
  | row :: rest =>
    if row.year = y then ⟨row.year, upsertCells row.cells r p⟩ :: rest
    else row :: upsertRow rest y r p

/-- The accumulated `yearlyData` object as an insertion-ordered association
list.  (`Object.values` enumerates the integer-like year keys in ascending
order; since the rows are then stably sorted by year anyway and the years are
pairwise distinct, the final list is the same.) -/
def buildYearly (rs : List Record) : List TrendRow :=
  rs.foldl (fun acc rec => upsertRow acc rec.year rec.runner rec.paceInSeconds) []

/-- The numeric ascending ordering of `.sort((a, b) => a.year - b.year)`. -/
def trendRowLe (a b : TrendRow) : Prop := a.year ≤ b.year

instance : DecidableRel trendRowLe := fun _ _ =>
  inferInstanceAs (Decidable (_ ≤ _))

/-- `trendData`. -/
def trendData (rs : List Record) : List TrendRow :=
  List.insertionSort trendRowLe (buildYearly rs)

/-- Reading one cell of the trend table: find the (unique) row of a year,
then the pace stored under a runner key. -/
def cellLookup (rows : List TrendRow) (y : ℤ) (r : String) : Option JSNum :=
  match rows.find? (fun row => row.year == y) with
  | some row => (row.cells.find? (fun c => c.1 == r)).map (fun c => c.2)
  | none => none

/-- The pace of the last record of a given runner and year in input order. -/
def lastPaceOf (rs : List Record) (r : String) (y : ℤ) : Option JSNum :=
  ((rs.filter (fun d => d.runner == r && d.year == y)).getLast?).map
    (fun d => d.paceInSeconds)

/-! ### Improvement reports (`src/App.js` lines 136–161) -/

/-- One entry of the year-over-year report. -/
structure YoYStat where
  runner : String
  improvement : JSNum
  improvementPercent : String
  latestPace : JSNum
  previousPace : JSNum
  isImprovement : Bool
deriving DecidableEq, Repr

/-- One entry of the all-time report. -/
structure OverallStat where
  runner : String
  improvement : JSNum
  improvementPercent : String
  firstPace : JSNum
  lastPace : JSNum
  isImprovement : Bool
deriving DecidableEq, Repr

/-- `years[years.length - 1]` (the guard `years.length < 2` makes the
fallback value dead at every use site). -/
def latestYearOf (rs : List Record) : ℤ := (years rs).getD ((years rs).length - 1) 0

/-- `years[years.length - 2]`. -/
def previousYearOf (rs : List Record) : ℤ := (years rs).getD ((years rs).length - 2) 0

/-- `yearOverYearImprovers`: for each distinct runner, look up (`Array.find`)
the first record of the latest and of the previous year, keep the runner if
both exist (`map` + `filter(Boolean)` is `filterMap`), and finally keep only
the entries with a strictly positive improvement. -/
def yearOverYearImprovers (rs : List Record) : List YoYStat :=
  if (years rs).length < 2 then []
  else
    ((runners rs).filterMap (fun runner =>
      match rs.find? (fun d => d.runner == runner && d.year == latestYearOf rs),
            rs.find? (fun d => d.runner == runner && d.year == previousYearOf rs) with
      | some latestData, some previousData =>
        let improvement := previousData.paceInSeconds.sub latestData.paceInSeconds
        some { runner := runner
               improvement := improvement
               improvementPercent :=
                 toFixed1 ((improvement.div previousData.paceInSeconds).mul (.num 100))
               latestPace := latestData.paceInSeconds
               previousPace := previousData.paceInSeconds
               isImprovement := improvement.gt (.num 0) }
      | _, _ => none)).filter (fun stat => stat.isImprovement)

/-- The per-runner chronological ordering `.sort((a, b) => a.year - b.year)`
(stable, so records of equal year keep input order). -/
def recordYearLe (a b : Record) : Prop := a.year ≤ b.year

instance : DecidableRel recordYearLe := fun _ _ =>
  inferInstanceAs (Decidable (_ ≤ _))

/-- `overallImprovers`: for each distinct runner, sort that runner's records
by year, compare the first against the last (runners with fewer than two
records are dropped), and keep only strictly positive improvements. -/
def overallImprovers (rs : List Record) : List OverallStat :=
  ((runners rs).filterMap (fun runner =>
    let runnerData := List.insertionSort recordYearLe (rs.filter (fun d => d.runner == runner))
    if runnerData.length < 2 then none
    else
      let firstPace := (runnerData.headD default).paceInSeconds
      let lastPace := (runnerData.getLastD default).paceInSeconds
      let improvement := firstPace.sub lastPace
      some { runner := runner
             improvement := improvement
             improvementPercent := toFixed1 ((improvement.div firstPace).mul (.num 100))
             firstPace := firstPace
             lastPace := lastPace
             isImprovement := improvement.gt (.num 0) })).filter (fun stat => stat.isImprovement)

/-- The first record of a given runner and year in input order (what the
`Array.find` calls of `yearOverYearImprovers` return). -/
def firstMatch (rs : List Record) (r : String) (y : ℤ) : Option Record :=
  (rs.filter (fun d => d.runner == r && d.year == y)).head?

/-- The bundle of derived views modelled in this file, recomputed from a
validated record set. -/
def allDerivedViews (rs : List Record) :
    List TrendRow × List ℤ × List String × List YoYStat × List OverallStat :=
  (trendData rs, years rs, runners rs, yearOverYearImprovers rs, overallImprovers rs)

example : timeToTotalSeconds "7:59" = JSNum.num 479 := by decide
example : timeToTotalSeconds "1:02:03" = JSNum.num 3723 := by decide
example : timeToTotalSeconds "abc" = JSNum.nan := by decide
example : secondsToPace (JSNum.num 479) "mile" = "7:59" := by decide
example : secondsToPace JSNum.inf "mile" = "Infinity:NaN" := by decide
example : toFixed1 (JSNum.num 10) = "10.0" := by decide
example :
    processData [⟨"A", "2024", "10:00", "-5"⟩] =
      [⟨"A", 2024, JSNum.num (-120), "-5"⟩] := by decide

/-! ### Concrete record sets used by counterexamples and witnesses -/

/-- Two runners, both improving from 2023 to 2024; `B` improves five times as
much as `A` but appears after `A` in the record set. -/
def exC1 : List Record :=
  [⟨"A", 2023, JSNum.num 300, "5"⟩, ⟨"A", 2024, JSNum.num 290, "5"⟩,
   ⟨"B", 2023, JSNum.num 300, "5"⟩, ⟨"B", 2024, JSNum.num 250, "5"⟩]

/-- A raw row whose event distance parses to `-5`. -/
def exC2 : RawRow := ⟨"A", "2024", "10:00", "-5"⟩

/-- A record set whose distinct years have different digit counts. -/
def exC5 : List Record :=
  [⟨"A", 999, JSNum.num 300, "5"⟩, ⟨"B", 1000, JSNum.num 200, "5"⟩]

/-- A single-record set (only one distinct year). -/
def exW5 : List Record := [⟨"A", 2023, JSNum.num 300, "5"⟩]

/-- A set in which runner `A` has two records in the latest year: the first
one (pace 270) is a big improvement on 2023, the second (pace 500) a decline. -/
def exC10 : List Record :=
  [⟨"A", 2023, JSNum.num 300, "5"⟩, ⟨"A", 2024, JSNum.num 270, "5"⟩,
   ⟨"A", 2024, JSNum.num 500, "5"⟩]

/-- A duplicate (runner, year) pair with different paces. -/
def exC6 : List Record :=
  [⟨"A", 2023, JSNum.num 300, "5"⟩, ⟨"A", 2023, JSNum.num 280, "5"⟩]

/-- A well-formed raw input row. -/
def exRaw : List RawRow := [⟨"B", "2024", "8:00", "5"⟩]

/-- The absolute magnitude of a finite JavaScript number (zero on the
non-finite values, which do not occur where this is used). -/
def JSNum.magnitude : JSNum → ℚ
  | .num q => |q|
  | _ => 0

/-! ### Generic list lemmas -/

/-- `Array.prototype.find` returns the head of the filtered list. -/
theorem find_eq_head_filter (p : α → Bool) (l : List α) :
    l.find? p = (l.filter p).head? := by
  induction l with
  | nil => rfl
  | cons x t ih =>
    cases h : p x with
    | true => rw [List.find?_cons_of_pos _ h, List.filter_cons_of_pos h, List.head?_cons]
    | false =>
      rw [List.find?_cons_of_neg _ (by simp [h]), List.filter_cons_of_neg (by simp [h]), ih]

/-- Mapping a left inverse over a `filterMap` yields a sublist of the input. -/
theorem filterMap_map_sublist (f : α → Option β) (g : β → α) (l : List α)
    (h : ∀ a b, f a = some b → g b = a) :
    List.Sublist ((l.filterMap f).map g) l := by
  induction l with
  | nil => simp
  | cons x t ih =>
    cases hf : f x with
    | none =>
      rw [List.filterMap_cons, hf]
      exact ih.cons x
    | some b =>
      rw [List.filterMap_cons, hf, List.map_cons, h x b hf]
      exact ih.cons₂ x

/-! ### Decomposition lemmas for `JSNum` arithmetic -/

/-- A finite JavaScript sum has finite summands. -/
theorem jsAdd_eq_num (x y : JSNum) (q : ℚ) (h : x.add y = JSNum.num q) :
    ∃ a b, x = JSNum.num a ∧ y = JSNum.num b ∧ q = a + b := by
  cases x <;> cases y <;> simp [JSNum.add] at h <;> exact ⟨_, _, rfl, rfl, h.symm⟩

/-- A finite JavaScript product with a positive constant has a finite factor. -/
theorem jsMul_const_eq_num (x : JSNum) (k q : ℚ) (hk : 0 < k)
    (h : x.mul (JSNum.num k) = JSNum.num q) :
    ∃ a, x = JSNum.num a ∧ q = a * k := by
  cases x with
  | nan => simp [JSNum.mul] at h
  | inf => simp [JSNum.mul, if_pos hk] at h
  | negInf => simp [JSNum.mul, if_pos hk] at h
  | num a => simp [JSNum.mul] at h; exact ⟨a, rfl, h.symm⟩

/-- The predicate of the amended third claim: a component value that is a
finite number is non-negative (unconstrained on non-finite values, which can
never contribute to a finite total). -/
def NonnegComp : JSNum → Prop
  | .num q => 0 ≤ q
  | _ => True

instance : DecidablePred NonnegComp := fun x =>
  match x with
  | .num q => inferInstanceAs (Decidable (0 ≤ q))
  | .nan => Decidable.isTrue trivial
  | .inf => Decidable.isTrue trivial
  | .negInf => Decidable.isTrue trivial

/-! ### Totality and transitivity of the string comparison -/

theorem lexLe_total (a b : List Char) : lexLe a b = true ∨ lexLe b a = true := by
  induction a generalizing b with
  | nil => left; rfl
  | cons x xs ih =>
    cases b with
    | nil => right; rfl
    | cons y ys =>
      rcases Nat.lt_trichotomy x.toNat y.toNat with h | h | h
      · left; simp [lexLe, h]
      · rcases ih ys with h2 | h2
        · left; simp [lexLe, h, h2]
        · right; simp [lexLe, h.symm, h2]
      · right; simp [lexLe, h]

theorem lexLe_trans (a b c : List Char) (h1 : lexLe a b = true) (h2 : lexLe b c = true) :
    lexLe a c = true := by
  induction a generalizing b c with
  | nil => rfl
  | cons x xs ih =>
    cases b with
    | nil => simp [lexLe] at h1
    | cons y ys =>
      cases c with
      | nil => simp [lexLe] at h2
      | cons z zs =>
        simp only [lexLe] at h1 h2 ⊢
        by_cases hxy : x.toNat < y.toNat
        · by_cases hyz : y.toNat < z.toNat
          · rw [if_pos (hxy.trans hyz)]
          · by_cases hzy : z.toNat < y.toNat
            · rw [if_neg hyz, if_pos hzy] at h2
              exact absurd h2 (by simp)
            · rw [if_pos (show x.toNat < z.toNat by omega)]
        · by_cases hyx : y.toNat < x.toNat
          · rw [if_neg hxy, if_pos hyx] at h1
            exact absurd h1 (by simp)
          · rw [if_neg hxy, if_neg hyx] at h1
            by_cases hyz : y.toNat < z.toNat
            · rw [if_pos (show x.toNat < z.toNat by omega)]
            · by_cases hzy : z.toNat < y.toNat
              · rw [if_neg hyz, if_pos hzy] at h2
                exact absurd h2 (by simp)
              · rw [if_neg hyz, if_neg hzy] at h2
                rw [if_neg (show ¬x.toNat < z.toNat by omega),
                  if_neg (show ¬z.toNat < x.toNat by omega)]
                exact ih ys zs h1 h2

instance : IsTotal ℤ yearStrLe := ⟨fun _ _ => lexLe_total _ _⟩
instance : IsTrans ℤ yearStrLe := ⟨fun _ _ _ h1 h2 => lexLe_trans _ _ _ h1 h2⟩

/-! ### Claims -/

/-- Claim C8: the Time Parser maps `7:59` to 479 and `1:02:03` to 3723, and
maps the empty string, `abc` and `1:2:3:4` to the distinguished invalid
result (NaN). -/
theorem c8_time_examples :
    timeToTotalSeconds "7:59" = JSNum.num 479 ∧
    timeToTotalSeconds "1:02:03" = JSNum.num 3723 ∧
    timeToTotalSeconds "" = JSNum.nan ∧
    timeToTotalSeconds "abc" = JSNum.nan ∧
    timeToTotalSeconds "1:2:3:4" = JSNum.nan := by
  refine ⟨by decide, by decide, by decide, by decide, by decide⟩

/-- Claim C9 (determinism): sanitizing and aggregating the same raw input
twice yields the same validated record set and the same derived views.  In
the embedding every pipeline stage is a pure function, so the two-run
equality is definitional. -/
theorem c9_pipeline_deterministic (raw1 raw2 : List RawRow) (h : raw1 = raw2) :
    processData raw1 = processData raw2 ∧
    allDerivedViews (processData raw1) = allDerivedViews (processData raw2) := by
  subst h; exact ⟨rfl, rfl⟩

/-- Witness for C9 at a concrete raw input. -/
theorem c9_witness :
    processData exRaw = processData exRaw ∧
    allDerivedViews (processData exRaw) = allDerivedViews (processData exRaw) :=
  c9_pipeline_deterministic exRaw exRaw rfl

/-- Claim C1 is false of the code: on `exC1` both improvement reports list
the less-improved runner `A` (improvement 10) before the more-improved
runner `B` (improvement 50), so neither report is sorted descending by
absolute improvement magnitude. -/
theorem c1_counterexample :
    (yearOverYearImprovers exC1).map (fun s => s.improvement) =
      [JSNum.num 10, JSNum.num 50] ∧
    (overallImprovers exC1).map (fun s => s.improvement) =
      [JSNum.num 10, JSNum.num 50] ∧
    ¬ ((yearOverYearImprovers exC1).map (fun s => s.improvement.magnitude)).Pairwise
        (fun a b => b ≤ a) ∧
    ¬ ((overallImprovers exC1).map (fun s => s.improvement.magnitude)).Pairwise
        (fun a b => b ≤ a) := by
  refine ⟨by decide, by decide, by decide, by decide⟩

/-- Claim C1 amended: both improvement reports return their retained entries
in runner first-appearance order (their runner sequence is a subsequence of
the distinct-runner list); no sort by improvement magnitude is applied. -/
theorem c1_amended (rs : List Record) :
    List.Sublist ((yearOverYearImprovers rs).map (fun s => s.runner)) (runners rs) ∧
    List.Sublist ((overallImprovers rs).map (fun s => s.runner)) (runners rs) := by
  constructor
  · unfold yearOverYearImprovers
    by_cases h : (years rs).length < 2
    · rw [if_pos h]; exact List.nil_sublist _
    · rw [if_neg h]
      refine List.Sublist.trans (List.Sublist.map _ (List.filter_sublist _)) ?_
      refine filterMap_map_sublist _ _ _ ?_
      intro a b hab
      dsimp only at hab
      split at hab
      · cases hab; rfl
      · exact absurd hab (by simp)
  · unfold overallImprovers
    refine List.Sublist.trans (List.Sublist.map _ (List.filter_sublist _)) ?_
    refine filterMap_map_sublist _ _ _ ?_
    intro a b hab
    dsimp only at hab
    split at hab
    · exact absurd hab (by simp)
    · cases hab; rfl

/-- Claim C2 is false of the code: a row whose event distance parses to `-5`
(which is ≤ 0) is not rejected, and the resulting validated record carries
the negative pace `-120`. -/
theorem c2_counterexample :
    parseFloatJS exC2.event = JSNum.num (-5) ∧
    processData [exC2] = [⟨"A", 2024, JSNum.num (-120), "-5"⟩] ∧
    ((-120 : ℚ) < 0) := by
  refine ⟨by decide, by decide, by decide⟩

/-- Claim C2 amended: the Sanitizer rejects a row only when its event
distance parses to NaN or is exactly zero (or the time is invalid); what is
guaranteed of every validated record is that its pace is not NaN — negative
or infinite paces can occur. -/
theorem c2_amended :
    (∀ raw rec, rec ∈ processData raw → rec.paceInSeconds ≠ JSNum.nan) ∧
    (∀ row : RawRow,
      parseFloatJS row.event = JSNum.num 0 ∨ parseFloatJS row.event = JSNum.nan →
      processData [row] = []) := by
  constructor
  · intro raw rec h
    unfold processData at h
    rw [List.mem_filterMap] at h
    obtain ⟨m, _, he⟩ := h
    cases m with
    | ok r y p e =>
      cases y with
      | some z =>
        rw [show extractRecord (.ok r (some z) p e) =
          if p = JSNum.nan then none else some ⟨r, z, p, e⟩ from rfl] at he
        split at he
        · exact absurd he (by simp)
        · next hnan => cases he; exact hnan
      | none => exact absurd he (by simp [extractRecord])
    | bad row => exact absurd he (by simp [extractRecord])
  · intro row h
    unfold processData
    by_cases hp : (!(row.runner == "") && !(row.year == "") &&
        !(row.time == "") && !(row.event == "")) = true
    · rw [List.filter_cons, if_pos hp, List.filter_nil, List.map_cons, List.map_nil]
      have hbad : mapRow row = .bad row := by
        unfold mapRow
        rw [if_pos]
        rcases h with h | h
        · exact Or.inr (Or.inr h)
        · exact Or.inr (Or.inl h)
      rw [List.filterMap_cons, hbad]
      rfl
    · rw [List.filter_cons, if_neg hp, List.filter_nil]
      rfl

/-- Witness for C2 (amended): a standard valid row yields a record whose pace
is not NaN, and a zero-distance row is dropped. -/
theorem c2_witness :
    (⟨"B", 2024, JSNum.num 96, "5"⟩ : Record).paceInSeconds ≠ JSNum.nan ∧
    processData [⟨"C", "2024", "8:00", "0"⟩] = [] :=
  ⟨c2_amended.1 exRaw ⟨"B", 2024, JSNum.num 96, "5"⟩ (by decide),
   c2_amended.2 ⟨"C", "2024", "8:00", "0"⟩ (Or.inl (by decide))⟩

/-- Claim C3 is false of the code: `-1:30` parses to the negative total
`-30`, and `0:30.5` parses to the fractional total `30.5` (denominator 2). -/
theorem c3_counterexample :
    timeToTotalSeconds "-1:30" = JSNum.num (-30) ∧ ((-30 : ℚ) < 0) ∧
    timeToTotalSeconds "0:30.5" = JSNum.num (61/2) ∧ ((61/2 : ℚ)).den = 2 := by
  refine ⟨by decide, by decide, by decide, by decide⟩

/-- Claim C3 amended: whenever the Time Parser yields a finite total and
every colon-separated component `Number`-parses to a non-negative value, the
total is non-negative (negative components, which the parser accepts, are
exactly what can make it negative). -/
theorem c3_amended (s : String) (q : ℚ)
    (hres : timeToTotalSeconds s = JSNum.num q)
    (hcomp : ∀ v ∈ (splitOnColon s.toList).map jsNumberL, NonnegComp v) :
    0 ≤ q := by
  unfold timeToTotalSeconds at hres
  split at hres
  · exact absurd hres (by simp)
  · simp only [] at hres
    split at hres
    · exact absurd hres (by simp)
    · split at hres
      next h m s' heq =>
        obtain ⟨x, c, hx, hc, rfl⟩ := jsAdd_eq_num _ _ _ hres
        obtain ⟨a2, b2, ha2, hb2, rfl⟩ := jsAdd_eq_num _ _ _ hx
        obtain ⟨a, ha, rfl⟩ := jsMul_const_eq_num _ _ _ (by norm_num) ha2
        obtain ⟨b, hb, rfl⟩ := jsMul_const_eq_num _ _ _ (by norm_num) hb2
        have m1 : NonnegComp (JSNum.num a) := by
          have := hcomp h (by rw [heq]; simp)
          rwa [ha] at this
        have m2 : NonnegComp (JSNum.num b) := by
          have := hcomp m (by rw [heq]; simp)
          rwa [hb] at this
        have m3 : NonnegComp (JSNum.num c) := by
          have := hcomp s' (by rw [heq]; simp)
          rwa [hc] at this
        simp only [NonnegComp] at m1 m2 m3
        nlinarith
      next m s' heq =>
        obtain ⟨x, c, hx, hc, rfl⟩ := jsAdd_eq_num _ _ _ hres
        obtain ⟨a, ha, rfl⟩ := jsMul_const_eq_num _ _ _ (by norm_num) hx
        have m1 : NonnegComp (JSNum.num a) := by
          have := hcomp m (by rw [heq]; simp)
          rwa [ha] at this
        have m2 : NonnegComp (JSNum.num c) := by
          have := hcomp s' (by rw [heq]; simp)
          rwa [hc] at this
        simp only [NonnegComp] at m1 m2
        nlinarith
      next => exact absurd hres (by simp)

/-- Witness for C3 (amended) at the input `7:59`. -/
theorem c3_witness :
    timeToTotalSeconds "7:59" = JSNum.num 479 ∧ (0 : ℚ) ≤ 479 :=
  ⟨by decide, c3_amended "7:59" 479 (by decide) (by decide)⟩

/-- Claim C4 is false of the code: `Infinity` is non-finite, yet the
formatter renders `Infinity:NaN` rather than the `N/A` marker (only NaN is
caught by the guard). -/
theorem c4_counterexample :
    secondsToPace JSNum.inf "mile" = "Infinity:NaN" ∧
    secondsToPace JSNum.inf "mile" ≠ "N/A" := by
  refine ⟨by decide, by decide⟩

/-- Claim C4 amended: for NaN input the formatter returns the `N/A` marker in
every unit; for infinite inputs it instead returns the string
`Infinity:NaN` (still no exception — the model is total). -/
theorem c4_amended (unit : String) :
    secondsToPace JSNum.nan unit = "N/A" ∧
    secondsToPace JSNum.inf unit = "Infinity:NaN" ∧
    secondsToPace JSNum.negInf unit = "Infinity:NaN" := by
  by_cases h : unit = "km"
  · subst h; refine ⟨by decide, by decide, by decide⟩
  · refine ⟨by simp [secondsToPace], ?_, ?_⟩ <;>
      · unfold secondsToPace
        rw [if_neg (by simp), if_neg h]
        decide

/-- Claim C5 is false of the code: with distinct years 999 and 1000 the
default (string-comparing) sort puts 1000 before 999, so the year list is
not ascending numerically, and the year-over-year report would treat 999 as
the latest year even though 1000 is more recent. -/
theorem c5_counterexample :
    years exC5 = [1000, 999] ∧
    ¬ (years exC5).Pairwise (fun a b => a ≤ b) ∧
    latestYearOf exC5 = 999 ∧ previousYearOf exC5 = 1000 ∧ (999 : ℤ) < 1000 := by
  refine ⟨by decide, by decide, by decide, by decide, by decide⟩

/-- Claim C5 amended: the derived list of distinct years is sorted ascending
by the code-unit order of the decimal string renderings (which agrees with
numeric order only when all years have equally long renderings), and the
year-over-year report is empty whenever fewer than two distinct years are
present (it compares the last two entries of that list). -/
theorem c5_amended (rs : List Record) :
    List.Pairwise yearStrLe (years rs) ∧
    ((years rs).length < 2 → yearOverYearImprovers rs = []) := by
  constructor
  · exact List.sorted_insertionSort yearStrLe _
  · intro h
    unfold yearOverYearImprovers
    rw [if_pos h]

/-- Witness for C5 (amended) at a single-year record set. -/
theorem c5_witness :
    List.Pairwise yearStrLe (years exW5) ∧ yearOverYearImprovers exW5 = [] :=
  ⟨(c5_amended exW5).1, (c5_amended exW5).2 (by decide)⟩

/-! ### The trend table is last-write-wins (toward claim C6) -/

theorem cellLookup_cons (row : TrendRow) (l : List TrendRow) (y : ℤ) (r : String) :
    cellLookup (row :: l) y r =
      if row.year = y then (row.cells.find? (fun c => c.1 == r)).map (fun c => c.2)
      else cellLookup l y r := by
  unfold cellLookup
  by_cases h : row.year = y
  · rw [List.find?_cons_of_pos _ (by simp [h]), if_pos h]
  · rw [List.find?_cons_of_neg _ (by simp [h]), if_neg h]

theorem find_upsertCells_self (cells : List (String × JSNum)) (r : String) (p : JSNum) :
    ((upsertCells cells r p).find? (fun c => c.1 == r)).map (fun c => c.2) = some p := by
  induction cells with
  | nil =>
    rw [show upsertCells [] r p = [(r, p)] from rfl, List.find?_cons_of_pos _ (by simp)]
    rfl
  | cons c rest ih =>
    unfold upsertCells
    by_cases h : c.1 = r
    · rw [if_pos h, List.find?_cons_of_pos _ (by simp [h])]
      rfl
    · rw [if_neg h, List.find?_cons_of_neg _ (by simp [h])]
      exact ih

theorem find_upsertCells_other (cells : List (String × JSNum)) (r : String) (p : JSNum)
    (r2 : String) (hne : r ≠ r2) :
    (upsertCells cells r p).find? (fun c => c.1 == r2) = cells.find? (fun c => c.1 == r2) := by
  induction cells with
  | nil =>
    rw [show upsertCells [] r p = [(r, p)] from rfl,
      List.find?_cons_of_neg _ (by simp [hne])]
  | cons c rest ih =>
    unfold upsertCells
    by_cases h : c.1 = r
    · rw [if_pos h]
      have h2 : ¬c.1 = r2 := fun h2 => hne (h.symm.trans h2)
      rw [List.find?_cons_of_neg _ (by simp [h2]), List.find?_cons_of_neg _ (by simp [h2])]
    · rw [if_neg h]
      by_cases h2 : c.1 = r2
      · rw [List.find?_cons_of_pos _ (by simp [h2]), List.find?_cons_of_pos _ (by simp [h2])]
      · rw [List.find?_cons_of_neg _ (by simp [h2]), List.find?_cons_of_neg _ (by simp [h2])]
        exact ih

theorem cellLookup_upsertRow_self (rows : List TrendRow) (y : ℤ) (r : String) (p : JSNum) :
    cellLookup (upsertRow rows y r p) y r = some p := by
  induction rows with
  | nil =>
    rw [show upsertRow [] y r p = [⟨y, [(r, p)]⟩] from rfl, cellLookup_cons, if_pos rfl]
    exact find_upsertCells_self [] r p
  | cons row rest ih =>
    unfold upsertRow
    by_cases h : row.year = y
    · rw [if_pos h, cellLookup_cons, if_pos h]
      exact find_upsertCells_self _ _ _
    · rw [if_neg h, cellLookup_cons, if_neg h]
      exact ih

theorem cellLookup_upsertRow_other (rows : List TrendRow) (y : ℤ) (r : String) (p : JSNum)
    (y2 : ℤ) (r2 : String) (hne : ¬(y = y2 ∧ r = r2)) :
    cellLookup (upsertRow rows y r p) y2 r2 = cellLookup rows y2 r2 := by
  induction rows with
  | nil =>
    rw [show upsertRow [] y r p = [⟨y, [(r, p)]⟩] from rfl, cellLookup_cons]
    by_cases hy : y = y2
    · rw [if_pos hy]
      have hr : ¬r = r2 := fun hr => hne ⟨hy, hr⟩
      rw [List.find?_cons_of_neg _ (by simp [hr]), List.find?_nil]
      rfl
    · rw [if_neg hy]
  | cons row rest ih =>
    unfold upsertRow
    by_cases h : row.year = y
    · rw [if_pos h, cellLookup_cons, cellLookup_cons]
      by_cases hy2 : row.year = y2
      · rw [if_pos hy2, if_pos hy2]
        have hr : ¬r = r2 := fun hr => hne ⟨h.symm.trans hy2, hr⟩
        rw [find_upsertCells_other row.cells r p r2 hr]
      · rw [if_neg hy2, if_neg hy2]
    · rw [if_neg h, cellLookup_cons, cellLookup_cons]
      by_cases hy2 : row.year = y2
      · rw [if_pos hy2, if_pos hy2]
      · rw [if_neg hy2, if_neg hy2]
        exact ih

theorem lastPaceOf_cons_pos (rec : Record) (t : List Record) (r : String) (y : ℤ)
    (hm : (rec.runner == r && rec.year == y) = true) :
    lastPaceOf (rec :: t) r y = (lastPaceOf t r y).or (some rec.paceInSeconds) := by
  unfold lastPaceOf
  rw [List.filter_cons, if_pos hm]
  cases hl : t.filter (fun d => d.runner == r && d.year == y) with
  | nil => rfl
  | cons d t2 => rw [List.getLast?_cons_cons]; cases hg : (d :: t2).getLast? with
    | none => simp at hg
    | some e => rfl

theorem lastPaceOf_cons_neg (rec : Record) (t : List Record) (r : String) (y : ℤ)
    (hm : ¬(rec.runner == r && rec.year == y) = true) :
    lastPaceOf (rec :: t) r y = lastPaceOf t r y := by
  unfold lastPaceOf
  rw [List.filter_cons, if_neg hm]

theorem cellLookup_foldl (rs : List Record) (acc : List TrendRow) (y : ℤ) (r : String) :
    cellLookup
      (rs.foldl (fun a rec => upsertRow a rec.year rec.runner rec.paceInSeconds) acc) y r
      = (lastPaceOf rs r y).or (cellLookup acc y r) := by
  induction rs generalizing acc with
  | nil => rfl
  | cons rec t ih =>
    rw [List.foldl_cons, ih]
    by_cases hm : (rec.runner == r && rec.year == y) = true
    · rw [lastPaceOf_cons_pos rec t r y hm]
      cases hl : lastPaceOf t r y with
      | some d => rfl
      | none =>
        obtain ⟨h1, h2⟩ : rec.runner = r ∧ rec.year = y := by simpa using hm
        show cellLookup (upsertRow acc rec.year rec.runner rec.paceInSeconds) y r =
          some rec.paceInSeconds
        rw [h1, h2]
        exact cellLookup_upsertRow_self acc y r rec.paceInSeconds
    · rw [lastPaceOf_cons_neg rec t r y hm]
      cases hl : lastPaceOf t r y with
      | some d => rfl
      | none =>
        show cellLookup (upsertRow acc rec.year rec.runner rec.paceInSeconds) y r =
          cellLookup acc y r
        refine cellLookup_upsertRow_other acc rec.year rec.runner rec.paceInSeconds y r ?_
        rintro ⟨hy, hr⟩
        exact hm (by simp [hy, hr])

theorem mem_upsertRow (rows : List TrendRow) (y : ℤ) (r : String) (p : JSNum) :
    ∀ b ∈ upsertRow rows y r p, b.year = y ∨ ∃ a ∈ rows, b.year = a.year := by
  induction rows with
  | nil =>
    intro b hb
    rw [show upsertRow [] y r p = [⟨y, [(r, p)]⟩] from rfl] at hb
    rcases List.mem_singleton.mp hb with rfl
    exact Or.inl rfl
  | cons row rest ih =>
    intro b hb
    unfold upsertRow at hb
    by_cases h : row.year = y
    · rw [if_pos h] at hb
      rcases List.mem_cons.mp hb with rfl | hb2
      · exact Or.inr ⟨row, List.mem_cons_self _ _, rfl⟩
      · exact Or.inr ⟨b, List.mem_cons_of_mem _ hb2, rfl⟩
    · rw [if_neg h] at hb
      rcases List.mem_cons.mp hb with rfl | hb2
      · exact Or.inr ⟨b, List.mem_cons_self _ _, rfl⟩
      · rcases ih b hb2 with h1 | ⟨a, ha, h2⟩
        · exact Or.inl h1
        · exact Or.inr ⟨a, List.mem_cons_of_mem _ ha, h2⟩

theorem pairwise_upsertRow (rows : List TrendRow) (y : ℤ) (r : String) (p : JSNum)
    (hp : rows.Pairwise (fun a b => a.year ≠ b.year)) :
    (upsertRow rows y r p).Pairwise (fun a b => a.year ≠ b.year) := by
  induction rows with
  | nil =>
    rw [show upsertRow [] y r p = [⟨y, [(r, p)]⟩] from rfl]
    exact List.pairwise_singleton _ _
  | cons row rest ih =>
    rcases List.pairwise_cons.mp hp with ⟨hhead, htail⟩
    unfold upsertRow
    by_cases h : row.year = y
    · rw [if_pos h]
      exact List.pairwise_cons.mpr ⟨fun b hb => hhead b hb, htail⟩
    · rw [if_neg h]
      refine List.pairwise_cons.mpr ⟨?_, ih htail⟩
      intro b hb
      rcases mem_upsertRow rest y r p b hb with h1 | ⟨a, ha, h2⟩
      · rw [h1]; exact h
      · rw [h2]; exact hhead a ha

theorem pairwise_buildYearly_aux (rs : List Record) (acc : List TrendRow)
    (hp : acc.Pairwise (fun a b => a.year ≠ b.year)) :
    (rs.foldl (fun a rec => upsertRow a rec.year rec.runner rec.paceInSeconds) acc).Pairwise
      (fun a b => a.year ≠ b.year) := by
  induction rs generalizing acc with
  | nil => exact hp
  | cons rec t ih =>
    rw [List.foldl_cons]
    exact ih _ (pairwise_upsertRow acc rec.year rec.runner rec.paceInSeconds hp)

theorem pairwise_buildYearly (rs : List Record) :
    (buildYearly rs).Pairwise (fun a b => a.year ≠ b.year) :=
  pairwise_buildYearly_aux rs [] (List.Pairwise.nil)

theorem pairwise_year_unique (l : List TrendRow)
    (hp : l.Pairwise (fun a b => a.year ≠ b.year)) :
    ∀ x ∈ l, ∀ y ∈ l, x.year = y.year → x = y := by
  induction l with
  | nil => intro x hx; cases hx
  | cons a t ih =>
    rcases List.pairwise_cons.mp hp with ⟨hh, ht⟩
    intro x hx y hy hxy
    rcases List.mem_cons.mp hx with rfl | hx2
    · rcases List.mem_cons.mp hy with rfl | hy2
      · rfl
      · exact absurd hxy (hh y hy2)
    · rcases List.mem_cons.mp hy with rfl | hy2
      · exact absurd hxy.symm (hh x hx2)
      · exact ih ht x hx2 y hy2 hxy

theorem find_perm_of_pairwise (l1 l2 : List TrendRow) (hperm : l1.Perm l2)
    (hp : l1.Pairwise (fun a b => a.year ≠ b.year)) (y : ℤ) :
    l1.find? (fun row => row.year == y) = l2.find? (fun row => row.year == y) := by
  cases h1 : l1.find? (fun row => row.year == y) with
  | some row =>
    have hmem := List.mem_of_find?_eq_some h1
    have hpred := List.find?_some h1
    cases h2 : l2.find? (fun row => row.year == y) with
    | some row2 =>
      have hm2 := List.mem_of_find?_eq_some h2
      have hp2 := List.find?_some h2
      have heq : row = row2 := by
        refine pairwise_year_unique l1 hp row hmem row2 (hperm.mem_iff.mpr hm2) ?_
        have e1 : row.year = y := by simpa using hpred
        have e2 : row2.year = y := by simpa using hp2
        rw [e1, e2]
      rw [heq]
    | none =>
      have := List.find?_eq_none.mp h2 row (hperm.mem_iff.mp hmem)
      exact absurd hpred this
  | none =>
    cases h2 : l2.find? (fun row => row.year == y) with
    | some row2 =>
      have hm2 := List.mem_of_find?_eq_some h2
      have hp2 := List.find?_some h2
      have := List.find?_eq_none.mp h1 row2 (hperm.mem_iff.mpr hm2)
      exact absurd hp2 this
    | none => rfl

theorem cellLookup_trendData (rs : List Record) (y : ℤ) (r : String) :
    cellLookup (trendData rs) y r = cellLookup (buildYearly rs) y r := by
  unfold cellLookup trendData
  rw [find_perm_of_pairwise (buildYearly rs) (List.insertionSort trendRowLe (buildYearly rs))
    (List.perm_insertionSort trendRowLe (buildYearly rs)).symm (pairwise_buildYearly rs) y]

/-- Claim C6: whenever the validated record set contains records for a
runner and year, the trend-table cell for that runner and year holds the
pace of the last such record in input order (last-write-wins). -/
theorem c6_trend_last_write_wins (rs : List Record) (r : String) (y : ℤ) (p : JSNum)
    (h : lastPaceOf rs r y = some p) :
    cellLookup (trendData rs) y r = some p := by
  rw [cellLookup_trendData]
  unfold buildYearly
  rw [cellLookup_foldl rs [] y r, h]
  rfl

/-- Witness for C6 at a record set with a duplicate (runner, year) pair:
the later pace 280 wins over the earlier 300. -/
theorem c6_witness : cellLookup (trendData exC6) 2023 "A" = some (JSNum.num 280) :=
  c6_trend_last_write_wins exC6 "A" 2023 (JSNum.num 280) (by decide)

/-! ### The year-over-year report reads the first matching record (claim C10) -/

/-- The concrete report entry produced for runner `A` on `exC10`. -/
def exC10Stat : YoYStat :=
  ⟨"A", JSNum.num 30, "10.0", JSNum.num 270, JSNum.num 300, true⟩

/-- Claim C10: every entry of the year-over-year report takes its latest and
previous pace from the first record (in input order) of that runner in the
latest resp. previous year — `Array.find`, unlike the trend table's
last-write-wins rule. -/
theorem c10_yoy_first_match (rs : List Record) (stat : YoYStat)
    (h : stat ∈ yearOverYearImprovers rs) :
    2 ≤ (years rs).length ∧
    ∃ a b : Record,
      firstMatch rs stat.runner (latestYearOf rs) = some a ∧
      firstMatch rs stat.runner (previousYearOf rs) = some b ∧
      stat.latestPace = a.paceInSeconds ∧
      stat.previousPace = b.paceInSeconds ∧
      stat.improvement = b.paceInSeconds.sub a.paceInSeconds := by
  unfold yearOverYearImprovers at h
  split at h
  · exact absurd h (List.not_mem_nil _)
  · next hlen =>
    refine ⟨by omega, ?_⟩
    have h2 := List.mem_of_mem_filter h
    rw [List.mem_filterMap] at h2
    obtain ⟨runner, _, hf⟩ := h2
    dsimp only at hf
    split at hf
    · next a b hfind1 hfind2 =>
      cases hf
      refine ⟨a, b, ?_, ?_, rfl, rfl, rfl⟩
      · unfold firstMatch
        rw [← find_eq_head_filter]
        exact hfind1
      · unfold firstMatch
        rw [← find_eq_head_filter]
        exact hfind2
    · exact absurd hf (by simp)

/-- Witness for C10 on `exC10`, where the latest year holds two records for
runner `A`: the report used the first (pace 270), not the last (pace 500). -/
theorem c10_witness :
    2 ≤ (years exC10).length ∧
    ∃ a b : Record,
      firstMatch exC10 exC10Stat.runner (latestYearOf exC10) = some a ∧
      firstMatch exC10 exC10Stat.runner (previousYearOf exC10) = some b ∧
      exC10Stat.latestPace = a.paceInSeconds ∧
      exC10Stat.previousPace = b.paceInSeconds ∧
      exC10Stat.improvement = b.paceInSeconds.sub a.paceInSeconds :=
  c10_yoy_first_match exC10 exC10Stat (by decide)

/-! ### Round trip of the display rendering (toward claim C7) -/

theorem charVal_digitChar : ∀ d, d < 10 → charVal (digitChar d) = d := by decide

theorem isDigitC_digitChar : ∀ d, d < 10 → isDigitC (digitChar d) = true := by decide

theorem digitsToNat_append_singleton (l : List Char) (c : Char) :
    digitsToNat (l ++ [c]) = digitsToNat l * 10 + charVal c := by
  unfold digitsToNat
  rw [List.foldl_append]
  rfl

theorem natToCharsRevF_val (fuel : Nat) : ∀ n, n ≤ fuel →
    digitsToNat (natToCharsRevF fuel n).reverse = n := by
  induction fuel with
  | zero =>
    intro n hn
    have h0 : n = 0 := Nat.le_zero.mp hn
    subst h0
    rfl
  | succ f ih =>
    intro n hn
    cases n with
    | zero => rfl
    | succ k =>
      rw [show natToCharsRevF (f + 1) (k + 1)
          = digitChar ((k + 1) % 10) :: natToCharsRevF f ((k + 1) / 10) from rfl]
      rw [List.reverse_cons, digitsToNat_append_singleton]
      rw [ih ((k + 1) / 10) (by omega)]
      rw [charVal_digitChar _ (Nat.mod_lt _ (by norm_num))]
      omega

theorem natToCharsRevF_digits (fuel : Nat) :
    ∀ n c, c ∈ natToCharsRevF fuel n → isDigitC c = true := by
  induction fuel with
  | zero => intro n c hc; cases hc
  | succ f ih =>
    intro n c hc
    cases n with
    | zero => cases hc
    | succ k =>
      rw [show natToCharsRevF (f + 1) (k + 1)
          = digitChar ((k + 1) % 10) :: natToCharsRevF f ((k + 1) / 10) from rfl] at hc
      rcases List.mem_cons.mp hc with rfl | hc2
      · exact isDigitC_digitChar _ (Nat.mod_lt _ (by norm_num))
      · exact ih _ _ hc2

theorem natToChars_digits (n : Nat) : ∀ c ∈ natToChars n, isDigitC c = true := by
  unfold natToChars
  by_cases h : n = 0
  · rw [if_pos h]; decide
  · rw [if_neg h]
    intro c hc
    exact natToCharsRevF_digits n n c (List.mem_reverse.mp hc)

theorem natToChars_val (n : Nat) : digitsToNat (natToChars n) = n := by
  unfold natToChars
  by_cases h : n = 0
  · rw [if_pos h, h]; rfl
  · rw [if_neg h]; exact natToCharsRevF_val n n le_rfl

theorem natToChars_ne_nil (n : Nat) : natToChars n ≠ [] := by
  unfold natToChars
  by_cases h : n = 0
  · rw [if_pos h]; exact List.cons_ne_nil _ _
  · rw [if_neg h]
    cases hn : n with
    | zero => exact absurd hn h
    | succ k =>
      rw [show natToCharsRevF (k + 1) (k + 1)
          = digitChar ((k + 1) % 10) :: natToCharsRevF k ((k + 1) / 10) from rfl]
      simp

theorem digit_char_props (c : Char) (h : isDigitC c = true) :
    isWs c = false ∧ c ≠ '-' ∧ c ≠ '+' ∧ c ≠ ':' ∧ c ≠ 'I' := by
  refine ⟨?_, ?_, ?_, ?_, ?_⟩
  · unfold isWs
    have h1 : c ≠ ' ' := by rintro rfl; exact absurd h (by decide)
    have h2 : c ≠ '\t' := by rintro rfl; exact absurd h (by decide)
    have h3 : c ≠ '\n' := by rintro rfl; exact absurd h (by decide)
    have h4 : c ≠ '\r' := by rintro rfl; exact absurd h (by decide)
    simp [h1, h2, h3, h4]
  · rintro rfl; exact absurd h (by decide)
  · rintro rfl; exact absurd h (by decide)
  · rintro rfl; exact absurd h (by decide)
  · rintro rfl; exact absurd h (by decide)

theorem dropWhile_eq_self_of_none (p : Char → Bool) (l : List Char)
    (h : ∀ c ∈ l, p c = false) : l.dropWhile p = l := by
  cases l with
  | nil => rfl
  | cons c t => simp [List.dropWhile_cons, h c (List.mem_cons_self c t)]

theorem takeWhile_eq_self_of_all (p : Char → Bool) (l : List Char)
    (h : ∀ c ∈ l, p c = true) : l.takeWhile p = l := by
  induction l with
  | nil => rfl
  | cons c t ih =>
    simp [List.takeWhile_cons, h c (List.mem_cons_self c t),
      ih (fun x hx => h x (List.mem_cons_of_mem c hx))]

theorem dropWhile_eq_nil_of_all (p : Char → Bool) (l : List Char)
    (h : ∀ c ∈ l, p c = true) : l.dropWhile p = [] := by
  induction l with
  | nil => rfl
  | cons c t ih =>
    simp [List.dropWhile_cons, h c (List.mem_cons_self c t),
      ih (fun x hx => h x (List.mem_cons_of_mem c hx))]

theorem trimWs_digits (l : List Char) (h : ∀ c ∈ l, isDigitC c = true) : trimWs l = l := by
  unfold trimWs
  rw [dropWhile_eq_self_of_none _ _ (fun c hc => (digit_char_props c (h c hc)).1),
    dropWhile_eq_self_of_none _ _ (fun c hc =>
      (digit_char_props c (h c (List.mem_reverse.mp hc))).1),
    List.reverse_reverse]

theorem stripSign_digits (c : Char) (t : List Char) (h : isDigitC c = true) :
    stripSign (c :: t) = (false, c :: t) := by
  show (if c = '-' then ((true, t) : Bool × List Char)
    else if c = '+' then (false, t) else (false, c :: t)) = (false, c :: t)
  rw [if_neg (digit_char_props c h).2.1, if_neg (digit_char_props c h).2.2.1]

theorem parseUnsignedDec_digits (c : Char) (t : List Char)
    (h : ∀ x ∈ c :: t, isDigitC x = true) :
    parseUnsignedDec (c :: t) = some ((digitsToNat (c :: t) : ℚ)) := by
  unfold parseUnsignedDec
  rw [takeWhile_eq_self_of_all _ _ h, dropWhile_eq_nil_of_all _ _ h]
  rfl

theorem digits_ne_infinityChars (c : Char) (t : List Char) (h : isDigitC c = true) :
    c :: t ≠ infinityChars := by
  intro he
  have hI : c = 'I' := by
    have := congrArg (fun l => l.head?) he
    simpa [infinityChars] using this
  exact (digit_char_props c h).2.2.2.2 hI

theorem jsNumberL_digits (c : Char) (t : List Char)
    (h : ∀ x ∈ c :: t, isDigitC x = true) :
    jsNumberL (c :: t) = JSNum.num ((digitsToNat (c :: t) : ℚ)) := by
  have h0 := h c (List.mem_cons_self c t)
  unfold jsNumberL
  rw [trimWs_digits _ h, stripSign_digits c t h0]
  show jsNumberSigned false (c :: t) = JSNum.num ((digitsToNat (c :: t) : ℚ))
  unfold jsNumberSigned
  rw [if_neg (digits_ne_infinityChars c t h0), parseUnsignedDec_digits c t h]
  rfl

theorem splitOnColon_cons (c : Char) (t : List Char) :
    splitOnColon (c :: t) =
      if c = ':' then [] :: splitOnColon t
      else
        match splitOnColon t with
        | [] => [[c]]
        | h :: r => (c :: h) :: r := rfl

theorem splitOnColon_ne_nil (l : List Char) : splitOnColon l ≠ [] := by
  induction l with
  | nil => exact List.cons_ne_nil _ _
  | cons c t ih =>
    rw [splitOnColon_cons]
    by_cases h : c = ':'
    · rw [if_pos h]; exact List.cons_ne_nil _ _
    · rw [if_neg h]
      cases hs : splitOnColon t with
      | nil => exact absurd hs ih
      | cons a r => exact List.cons_ne_nil _ _

theorem splitOnColon_no_colon (l : List Char) (h : ∀ c ∈ l, c ≠ ':') :
    splitOnColon l = [l] := by
  induction l with
  | nil => rfl
  | cons c t ih =>
    rw [splitOnColon_cons, if_neg (h c (List.mem_cons_self c t)),
      ih (fun x hx => h x (List.mem_cons_of_mem c hx))]

theorem splitOnColon_append (a b : List Char) (ha : ∀ c ∈ a, c ≠ ':') :
    splitOnColon (a ++ ':' :: b) = a :: splitOnColon b := by
  induction a with
  | nil =>
    show splitOnColon (':' :: b) = [] :: splitOnColon b
    rw [splitOnColon_cons, if_pos rfl]
  | cons c t ih =>
    show splitOnColon (c :: (t ++ ':' :: b)) = (c :: t) :: splitOnColon b
    rw [splitOnColon_cons, if_neg (ha c (List.mem_cons_self c t)),
      ih (fun x hx => ha x (List.mem_cons_of_mem c hx))]

theorem digitsToNat_replicate_zero_append (k : Nat) (l : List Char) :
    digitsToNat (List.replicate k '0' ++ l) = digitsToNat l := by
  induction k with
  | zero => rfl
  | succ n ih =>
    rw [List.replicate_succ, List.cons_append]
    show digitsToNat (List.replicate n '0' ++ l) = digitsToNat l
    exact ih

theorem padStart2_digits (l : List Char) (h : ∀ c ∈ l, isDigitC c = true) :
    ∀ c ∈ padStart2 l, isDigitC c = true := by
  intro c hc
  unfold padStart2 at hc
  by_cases h2 : 2 ≤ l.length
  · rw [if_pos h2] at hc; exact h c hc
  · rw [if_neg h2] at hc
    rcases List.mem_append.mp hc with hc1 | hc2
    · rw [List.eq_of_mem_replicate hc1]; decide
    · exact h c hc2

theorem padStart2_val (l : List Char) : digitsToNat (padStart2 l) = digitsToNat l := by
  unfold padStart2
  by_cases h2 : 2 ≤ l.length
  · rw [if_pos h2]
  · rw [if_neg h2]; exact digitsToNat_replicate_zero_append _ l

theorem padStart2_ne_nil (l : List Char) (h : l ≠ []) : padStart2 l ≠ [] := by
  unfold padStart2
  by_cases h2 : 2 ≤ l.length
  · rw [if_pos h2]; exact h
  · rw [if_neg h2]
    intro he
    exact h (List.append_eq_nil.mp he).2

theorem timeToTotalSeconds_two_parts (A B : List Char) (hA : A ≠ [])
    (hAd : ∀ c ∈ A, isDigitC c = true) (hB : B ≠ []) (hBd : ∀ c ∈ B, isDigitC c = true) :
    timeToTotalSeconds (String.mk (A ++ ':' :: B))
      = JSNum.num ((digitsToNat A : ℚ) * 60 + (digitsToNat B : ℚ)) := by
  obtain ⟨a0, A2, rfl⟩ : ∃ a0 A2, A = a0 :: A2 := by
    cases A with
    | nil => exact absurd rfl hA
    | cons x xs => exact ⟨x, xs, rfl⟩
  obtain ⟨b0, B2, rfl⟩ : ∃ b0 B2, B = b0 :: B2 := by
    cases B with
    | nil => exact absurd rfl hB
    | cons x xs => exact ⟨x, xs, rfl⟩
  unfold timeToTotalSeconds
  rw [show (String.mk ((a0 :: A2) ++ ':' :: (b0 :: B2))).toList
      = (a0 :: A2) ++ ':' :: (b0 :: B2) from rfl]
  rw [show ((a0 :: A2) ++ ':' :: (b0 :: B2)).isEmpty = false from rfl]
  rw [splitOnColon_append _ _ (fun c hc => (digit_char_props c (hAd c hc)).2.2.2.1)]
  rw [splitOnColon_no_colon _ (fun c hc => (digit_char_props c (hBd c hc)).2.2.2.1)]
  rw [List.map_cons, List.map_cons, List.map_nil]
  rw [jsNumberL_digits a0 A2 hAd, jsNumberL_digits b0 B2 hBd]
  simp only [Bool.false_eq_true, if_false, List.any_cons, List.any_nil]
  rfl

theorem secondsToPace_eval (q : ℚ) (hq : 0 ≤ q) :
    secondsToPace (JSNum.num q) "mile"
      = String.mk (natToChars (⌊q / 60⌋).toNat ++ ':' ::
          padStart2 (natToChars (⌊q - 60 * (⌊q / 60⌋ : ℚ) + 1/2⌋).toNat)) := by
  have hm0 : (0:ℤ) ≤ ⌊q / 60⌋ := Int.floor_nonneg.mpr (by positivity)
  have hfle : (⌊q / 60⌋ : ℚ) ≤ q / 60 := Int.floor_le _
  have hs0 : (0:ℤ) ≤ ⌊q - 60 * (⌊q / 60⌋ : ℚ) + 1/2⌋ := by
    refine Int.le_floor.mpr ?_
    push_cast
    nlinarith
  unfold secondsToPace
  rw [if_neg (by simp), if_neg (show ¬("mile" = "km") by decide)]
  show String.mk ((((JSNum.num q).mathAbs.div (JSNum.num 60)).mathFloor.toChars) ++ ':' ::
      padStart2 (((JSNum.num q).mathAbs.mod (JSNum.num 60)).mathRound.toChars)) = _
  rw [show (JSNum.num q).mathAbs = JSNum.num q by
    rw [show (JSNum.num q).mathAbs = JSNum.num |q| from rfl, abs_of_nonneg hq]]
  rw [show (JSNum.num q).div (JSNum.num 60) = JSNum.num (q / 60) from by
    rw [show (JSNum.num q).div (JSNum.num 60)
        = if (60:ℚ) = 0 then (if 0 < q then JSNum.inf else if q < 0 then JSNum.negInf
          else JSNum.nan) else JSNum.num (q / 60) from rfl, if_neg (by norm_num)]]
  rw [show (JSNum.num q).mod (JSNum.num 60) = JSNum.num (q - 60 * (⌊q / 60⌋ : ℚ)) from by
    rw [show (JSNum.num q).mod (JSNum.num 60)
        = if (60:ℚ) = 0 then JSNum.nan
          else JSNum.num (q - 60 * (qtrunc (q / 60) : ℚ)) from rfl, if_neg (by norm_num),
      qtrunc, if_pos (show (0:ℚ) ≤ q / 60 by positivity)]]
  rw [show (JSNum.num (q / 60)).mathFloor = JSInt.int ⌊q / 60⌋ from rfl]
  rw [show (JSNum.num (q - 60 * (⌊q / 60⌋ : ℚ))).mathRound
      = JSInt.int ⌊q - 60 * (⌊q / 60⌋ : ℚ) + 1/2⌋ from rfl]
  rw [show JSInt.toChars (JSInt.int ⌊q / 60⌋) = natToChars (⌊q / 60⌋).toNat from by
    rw [show JSInt.toChars (JSInt.int ⌊q / 60⌋)
        = if ⌊q / 60⌋ < 0 then '-' :: natToChars (⌊q / 60⌋).natAbs
          else natToChars (⌊q / 60⌋).toNat from rfl, if_neg (by omega)]]
  rw [show JSInt.toChars (JSInt.int ⌊q - 60 * (⌊q / 60⌋ : ℚ) + 1/2⌋)
      = natToChars (⌊q - 60 * (⌊q / 60⌋ : ℚ) + 1/2⌋).toNat from by
    rw [show JSInt.toChars (JSInt.int ⌊q - 60 * (⌊q / 60⌋ : ℚ) + 1/2⌋)
        = if ⌊q - 60 * (⌊q / 60⌋ : ℚ) + 1/2⌋ < 0 then
            '-' :: natToChars (⌊q - 60 * (⌊q / 60⌋ : ℚ) + 1/2⌋).natAbs
          else natToChars (⌊q - 60 * (⌊q / 60⌋ : ℚ) + 1/2⌋).toNat from rfl,
      if_neg (by omega)]]

/-- Claim C7: rendering a non-negative finite seconds total with the mile
display formatter and re-parsing the result with the Time Parser recovers
the total to within one second (in fact within half a second). -/
theorem c7_round_trip (q : ℚ) (hq : 0 ≤ q) :
    ∃ r : ℚ, timeToTotalSeconds (secondsToPace (JSNum.num q) "mile") = JSNum.num r ∧
      |r - q| ≤ 1 := by
  have hm0 : (0:ℤ) ≤ ⌊q / 60⌋ := Int.floor_nonneg.mpr (by positivity)
  have hfle : (⌊q / 60⌋ : ℚ) ≤ q / 60 := Int.floor_le _
  have hfr0 : (0:ℚ) ≤ q - 60 * (⌊q / 60⌋ : ℚ) := by nlinarith
  have hs0 : (0:ℤ) ≤ ⌊q - 60 * (⌊q / 60⌋ : ℚ) + 1/2⌋ := by
    refine Int.le_floor.mpr ?_
    push_cast
    linarith
  refine ⟨((⌊q / 60⌋).toNat : ℚ) * 60 + ((⌊q - 60 * (⌊q / 60⌋ : ℚ) + 1/2⌋).toNat : ℚ),
    ?_, ?_⟩
  · rw [secondsToPace_eval q hq]
    rw [timeToTotalSeconds_two_parts _ _ (natToChars_ne_nil _) (natToChars_digits _)
      (padStart2_ne_nil _ (natToChars_ne_nil _)) (padStart2_digits _ (natToChars_digits _))]
    rw [padStart2_val, natToChars_val, natToChars_val]
  · have e1 : ((⌊q / 60⌋).toNat : ℚ) = ((⌊q / 60⌋ : ℤ) : ℚ) := by
      exact_mod_cast congrArg (fun z => ((z : ℤ) : ℚ)) (Int.toNat_of_nonneg hm0)
    have e2 : ((⌊q - 60 * (⌊q / 60⌋ : ℚ) + 1/2⌋).toNat : ℚ)
        = ((⌊q - 60 * (⌊q / 60⌋ : ℚ) + 1/2⌋ : ℤ) : ℚ) := by
      exact_mod_cast congrArg (fun z => ((z : ℤ) : ℚ)) (Int.toNat_of_nonneg hs0)
    rw [e1, e2]
    have hsle : ((⌊q - 60 * (⌊q / 60⌋ : ℚ) + 1/2⌋ : ℤ) : ℚ)
        ≤ q - 60 * (⌊q / 60⌋ : ℚ) + 1/2 := Int.floor_le _
    have hslt : q - 60 * (⌊q / 60⌋ : ℚ) + 1/2
        < ((⌊q - 60 * (⌊q / 60⌋ : ℚ) + 1/2⌋ : ℤ) : ℚ) + 1 := Int.lt_floor_add_one _
    rw [abs_le]
    constructor <;> linarith

/-- Witness for C7 at the total 479 seconds. -/
theorem c7_witness :
    (0:ℚ) ≤ 479 ∧
    ∃ r : ℚ, timeToTotalSeconds (secondsToPace (JSNum.num 479) "mile") = JSNum.num r ∧
      |r - 479| ≤ 1 :=
  ⟨by norm_num, c7_round_trip 479 (by norm_num)⟩
